import Mathlib

/-!
Shallow embedding of seigtm/StrategyFileEncrypter (src/main.cpp).

`std::string` values (texts, keys, file paths, file contents) are modelled as
`List Nat` of byte values (each byte `< 256`).  C++ exceptions thrown by
`std::stoull` are modelled with an explicit error monad (`Except CppExc`);
points where the C++ program's behaviour is undefined are marked with the
dedicated `CppExc.undefinedBehavior` value so that theorems can talk about
them without pretending the source defines a result there.
-/

/-- Abnormal outcomes of the C++ code: `invalidArgument` and `outOfRange`
mirror the `std::invalid_argument` / `std::out_of_range` exceptions thrown by
`std::stoull`; `undefinedBehavior` marks control points where the C++
program's behaviour is undefined (out-of-bounds iterator use, reading an
uninitialized pointer). -/
inductive CppExc
  | invalidArgument
  | outOfRange
  | undefinedBehavior
deriving DecidableEq, Repr

instance {e a : Type} [DecidableEq e] [DecidableEq a] : DecidableEq (Except e a) := by
  intro x y
  cases x <;> cases y <;>
    first
      | (apply isFalse; intro h; exact Except.noConfusion h)
      | (rename_i u v
         exact if h : u = v then isTrue (by rw [h]) else
           isFalse (fun hc => h (by injection hc)))

/-- The whitespace bytes recognised by `std::isspace` in the C locale,
which `std::stoull` skips before parsing. -/
def isSpaceChar (c : Nat) : Bool :=
  c = 32 || c = 9 || c = 10 || c = 11 || c = 12 || c = 13

/-- Whether byte `c` is a digit of the given base (bases 2 and 10 are the
only ones the program uses). -/
def isDigitBase (base c : Nat) : Bool :=
  48 ≤ c && c < 48 + base

/-- The optional single sign character accepted by `std::stoull` after
leading whitespace: returns (negate flag, remaining characters). -/
def splitSign (s : List Nat) : Bool × List Nat :=
  match s with
  | c :: rest =>
      if c = 45 then (true, rest)
      else if c = 43 then (false, rest)
      else (false, c :: rest)
  | [] => (false, [])

/-- `std::stoull(s, nullptr, base)`: skip C-locale whitespace, read one
optional sign, then the longest prefix of base digits.  No digit at all
throws `std::invalid_argument`; a magnitude above `2^64 - 1` throws
`std::out_of_range`; otherwise the value is the digit prefix's value,
negated modulo `2^64` when the sign was `-` (trailing non-digit characters
are ignored, exactly as in the C++ call, which passes no `pos` out-param).
`stoullDigits` is the digit group the parse consumes. -/
def stoullDigits (base : Nat) (s : List Nat) : List Nat :=
  ((splitSign (s.dropWhile isSpaceChar)).2).takeWhile (isDigitBase base)

/-- Whether the optional sign read by `std::stoull` was `-`. -/
def stoullNeg (s : List Nat) : Bool :=
  (splitSign (s.dropWhile isSpaceChar)).1

/-- The value of the digit group read by `std::stoull`. -/
def stoullVal (base : Nat) (s : List Nat) : Nat :=
  (stoullDigits base s).foldl (fun a c => a * base + (c - 48)) 0

def stoull (base : Nat) (s : List Nat) : Except CppExc Nat :=
  if (stoullDigits base s).isEmpty then .error .invalidArgument
  else if 2 ^ 64 ≤ stoullVal base s then .error .outOfRange
  else .ok (if stoullNeg s then (2 ^ 64 - stoullVal base s) % 2 ^ 64 else stoullVal base s)

/-- Loop body of `XOREncryptionStrategy::encrypt`: `output[i] = text[i] ^
key[i % key.size()]`, starting at index `i`.  Byte-level XOR models the C++
`char ^ char` (sign extension followed by truncation agrees with XOR on the
low 8 bits). -/
def xorBody (key : List Nat) : Nat → List Nat → List Nat
  | _, [] => []
  | i, b :: rest => (b ^^^ key.getD (i % key.length) 0) :: xorBody key (i + 1) rest

/-- `XOREncryptionStrategy::encrypt`: empty key returns the text unchanged,
otherwise XOR each byte with the cyclically repeated key. -/
def xorEncrypt (text key : List Nat) : List Nat :=
  if key.isEmpty then text else xorBody key 0 text

/-- `XOREncryptionStrategy::decrypt` just calls `encrypt`. -/
def xorDecrypt (text key : List Nat) : List Nat :=
  xorEncrypt text key

/-- `CaesarEncryptionStrategy::ASCIISize` (note: 255, not 256). -/
def ASCIISize : Nat := 255

/-- `CaesarEncryptionStrategy::encrypt`: parse the key with `std::stoull`
(exceptions propagate), then `ch += char(shift % ASCIISize)` on every byte;
the `char` addition wraps modulo 256. -/
def caesarEncrypt (text key : List Nat) : Except CppExc (List Nat) :=
  (stoull 10 key).map (fun shift => text.map (fun b => (b + shift % ASCIISize) % 256))

/-- `CaesarEncryptionStrategy::decrypt`: same key parse, then
`ch -= char(shift % ASCIISize)` with 8-bit wraparound. -/
def caesarDecrypt (text key : List Nat) : Except CppExc (List Nat) :=
  (stoull 10 key).map (fun shift => text.map (fun b => (b + 256 - shift % ASCIISize) % 256))

/-- One step of `BinaryEncryptionStrategy::encrypt`:
`std::bitset<8>(ch).to_string()` — the 8 low bits of the byte, most
significant first, as ASCII characters 48 = 0x30 and 49 = 0x31. -/
def binEncryptByte (b : Nat) : List Nat :=
  [48 + b / 128 % 2, 48 + b / 64 % 2, 48 + b / 32 % 2, 48 + b / 16 % 2,
   48 + b / 8 % 2, 48 + b / 4 % 2, 48 + b / 2 % 2, 48 + b % 2]

/-- `BinaryEncryptionStrategy::encrypt` (the key parameter is unnamed and
ignored in the source): concatenate the 8-character encodings of the bytes. -/
def binEncrypt (text : List Nat) (_key : List Nat) : List Nat :=
  (text.map binEncryptByte).flatten

/-- `BinaryEncryptionStrategy::decrypt` (key ignored): repeatedly take 8
characters, parse them with `std::stoull(segment, nullptr, 2)` and emit
`char(value)` (truncation modulo 256).  When between 1 and 7 characters
remain, the C++ loop advances its iterator past `text.end()` and reads out
of bounds — undefined behaviour, marked here with
`CppExc.undefinedBehavior`. -/
def binDecrypt : List Nat → Except CppExc (List Nat)
  | [] => .ok []
  | c1 :: c2 :: c3 :: c4 :: c5 :: c6 :: c7 :: c8 :: rest =>
      match stoull 2 [c1, c2, c3, c4, c5, c6, c7, c8] with
      | .error e => .error e
      | .ok v => (binDecrypt rest).map (fun tail => v % 256 :: tail)
  | _ => .error .undefinedBehavior

/-- The three concrete strategies of the program. -/
inductive Strategy
  | strXOR
  | strCaesar
  | strBinary
deriving DecidableEq, Repr

/-- Virtual dispatch of `EncryptionStrategy::encrypt` over the concrete
strategies (XOR and Binary never throw; Caesar propagates the key-parse
exceptions). -/
def stratEncrypt : Strategy → List Nat → List Nat → Except CppExc (List Nat)
  | .strXOR, text, key => .ok (xorEncrypt text key)
  | .strCaesar, text, key => caesarEncrypt text key
  | .strBinary, text, key => .ok (binEncrypt text key)

/-- Virtual dispatch of `EncryptionStrategy::decrypt`. -/
def stratDecrypt : Strategy → List Nat → List Nat → Except CppExc (List Nat)
  | .strXOR, text, key => .ok (xorDecrypt text key)
  | .strCaesar, text, key => caesarDecrypt text key
  | .strBinary, text, _key => binDecrypt text

/-- The file system visible to the driver: an association list from path
(bytes of the path string) to file content; a path absent from the list is a
missing file.  The first binding for a path is the current content. -/
abbrev FileSys := List (List Nat × List Nat)

/-- `IFileEncryptor::getTextFromFile`: the `std::ifstream` /
`istreambuf_iterator` read yields the file's bytes, and silently yields the
empty string when the file is missing or unreadable (a failed stream
produces no characters and no error is checked). -/
def getTextFromFile (fs : FileSys) (p : List Nat) : List Nat :=
  (fs.lookup p).getD []

/-- Writing `content` to path `p`: `std::ofstream(p, std::ios::trunc)`
creates the file or truncates existing content, never appends. -/
def fsWrite (fs : FileSys) (p : List Nat) (content : List Nat) : FileSys :=
  (p, content) :: fs.filter (fun e => e.1 != p)

/-- The `EncryptionStrategy *strategy` member of `IFileEncryptor`.  The
member has no initializer and the class has no constructor, so a
default-constructed `IFileEncryptor` holds an indeterminate pointer value;
`setStrategy` can later store a valid pointer.  A genuine null pointer is
also representable (it is what `if (!strategy)` tests for), although no
program path ever stores null. -/
inductive StratPtr
  | indeterminate
  | null
  | valid (s : Strategy)
deriving DecidableEq, Repr

/-- `IFileEncryptor::setStrategy`: a null argument leaves the binding
unchanged; a non-null argument replaces it. -/
def setStrategy (slot : StratPtr) (s : Option Strategy) : StratPtr :=
  match s with
  | none => slot
  | some st => .valid st

/-- Result of a driver call: `ret` is a normal boolean return with the
resulting file system, `exn` an escaping C++ exception (the output file has
already been created/truncated when the strategy throws), and `undef` marks
the undefined behaviour of evaluating `!strategy` on the uninitialized
member. -/
inductive DriverOutcome
  | ret (b : Bool) (fs : FileSys)
  | exn (e : CppExc) (fs : FileSys)
  | undef
deriving DecidableEq, Repr

/-- `IFileEncryptor::encrypt(filePathFrom, filePathTo, key)`: return false
when the strategy pointer is null; otherwise open (truncate) the output
file, read the source file (empty if missing) and write the strategy's
output.  Reading the uninitialized pointer is undefined behaviour. -/
def fileEncrypt (slot : StratPtr) (fs : FileSys) (src dst key : List Nat) : DriverOutcome :=
  match slot with
  | .indeterminate => .undef
  | .null => .ret false fs
  | .valid st =>
      let fs1 := fsWrite fs dst []
      match stratEncrypt st (getTextFromFile fs src) key with
      | .ok out => .ret true (fsWrite fs1 dst out)
      | .error e => .exn e fs1

/-- `IFileEncryptor::decrypt`: identical shape, using the strategy's
decrypt. -/
def fileDecrypt (slot : StratPtr) (fs : FileSys) (src dst key : List Nat) : DriverOutcome :=
  match slot with
  | .indeterminate => .undef
  | .null => .ret false fs
  | .valid st =>
      let fs1 := fsWrite fs dst []
      match stratDecrypt st (getTextFromFile fs src) key with
      | .ok out => .ret true (fsWrite fs1 dst out)
      | .error e => .exn e fs1

example : xorEncrypt [97, 98, 99] [52] = [85, 86, 87] := by decide
example : caesarEncrypt [97, 98, 99] [52] = Except.ok [101, 102, 103] := by decide
example : caesarEncrypt [97, 98, 99] [45, 49] = Except.ok [97, 98, 99] := by decide
example : stoull 10 [51, 97, 98, 99] = Except.ok 3 := by decide
example : binEncrypt [97] [] = [48, 49, 49, 48, 48, 48, 48, 49] := by decide
example : binDecrypt [48, 49, 49, 48, 48, 48, 48, 49] = Except.ok [97] := by decide
example : binDecrypt [48, 49, 49, 48, 48, 48, 48] = Except.error CppExc.undefinedBehavior := by decide
example : binDecrypt [48, 49, 49, 48, 48, 48, 48, 50] = Except.ok [48] := by decide

/-! ## Helper lemmas -/

lemma xorBody_involutive (key : List Nat) :
    ∀ (i : Nat) (text : List Nat), xorBody key i (xorBody key i text) = text := by
  intro i text
  induction text generalizing i with
  | nil => simp [xorBody]
  | cons b rest ih =>
      simp only [xorBody, ih]
      rw [Nat.xor_cancel_right]

lemma caesar_unshift_shift (s : Nat) :
    ∀ (l : List Nat), (∀ b ∈ l, b < 256) →
      (l.map (fun b => (b + s % ASCIISize) % 256)).map
        (fun b => (b + 256 - s % ASCIISize) % 256) = l := by
  intro l hl
  induction l with
  | nil => simp
  | cons b rest ih =>
      have hb : b < 256 := hl b (List.mem_cons_self b rest)
      have hs : s % ASCIISize < 255 := Nat.mod_lt _ (by simp [ASCIISize])
      simp only [List.map_cons, List.cons.injEq]
      constructor
      · simp only [ASCIISize] at hs ⊢
        omega
      · exact ih (fun x hx => hl x (List.mem_cons_of_mem b hx))

/-! ## Claim theorems -/

/-- Claim C3: the XOR strategy is an exact involution — for every byte text
and every non-empty key, `decrypt (encrypt text key) key = text`. -/
theorem xor_roundtrip (text key : List Nat) (hk : key ≠ []) :
    xorDecrypt (xorEncrypt text key) key = text := by
  have hempty : key.isEmpty = false := by simp [List.isEmpty_iff, hk]
  simp only [xorDecrypt, xorEncrypt, hempty, Bool.false_eq_true, if_false]
  exact xorBody_involutive key 0 text

/-- Witness for C3 at the spec scenario: XOR of "abc" with key "4" gives
"UVW", and decrypting "UVW" with "4" gives back "abc". -/
theorem xor_roundtrip_witness :
    xorEncrypt [97, 98, 99] [52] = [85, 86, 87] ∧
    xorDecrypt [85, 86, 87] [52] = [97, 98, 99] := by
  have h := xor_roundtrip [97, 98, 99] [52] (by decide)
  rw [show xorEncrypt [97, 98, 99] [52] = [85, 86, 87] from by decide] at h
  exact ⟨by decide, h⟩

/-- Claim C1: whenever the Caesar key parses (so encryption succeeds),
decrypting the encryption with the same key reproduces the original bytes:
the shift is reduced mod 255 and added with 8-bit wraparound, and decrypt
subtracts the same residue. -/
theorem caesar_roundtrip (text key c : List Nat)
    (hbytes : ∀ b ∈ text, b < 256)
    (henc : caesarEncrypt text key = Except.ok c) :
    caesarDecrypt c key = Except.ok text := by
  unfold caesarEncrypt at henc
  cases h : stoull 10 key with
  | error e => rw [h] at henc; simp [Except.map] at henc
  | ok s =>
      rw [h] at henc
      simp only [Except.map, Except.ok.injEq] at henc
      unfold caesarDecrypt
      rw [h]
      simp only [Except.map, Except.ok.injEq]
      rw [← henc]
      exact caesar_unshift_shift s text hbytes

/-- Witness for C1 at the spec scenario: Caesar with key "4" sends "abc" to
"efg", and decrypting "efg" with "4" gives back "abc". -/
theorem caesar_roundtrip_witness :
    caesarEncrypt [97, 98, 99] [52] = Except.ok [101, 102, 103] ∧
    caesarDecrypt [101, 102, 103] [52] = Except.ok [97, 98, 99] :=
  ⟨by decide, caesar_roundtrip [97, 98, 99] [52] [101, 102, 103] (by decide) (by decide)⟩

set_option maxRecDepth 4096 in
lemma stoull2_binEncryptByte : ∀ b, b < 256 → stoull 2 (binEncryptByte b) = Except.ok b := by
  decide

set_option maxRecDepth 4096 in
lemma binEncryptByte_foldl : ∀ b, b < 256 →
    (binEncryptByte b).foldl (fun a c => 2 * a + (c - 48)) 0 = b := by
  decide

lemma binDecrypt_encrypted_cons (b : Nat) (l : List Nat) :
    binDecrypt (binEncryptByte b ++ l) =
      match stoull 2 (binEncryptByte b) with
      | .error e => .error e
      | .ok v => (binDecrypt l).map (fun tail => v % 256 :: tail) := rfl

/-- Claim C2: the binary strategy round-trips — decoding the encoding of any
byte text gives the text back, for any pair of (ignored) keys. -/
theorem binary_roundtrip (text k1 : List Nat) (hbytes : ∀ b ∈ text, b < 256) :
    binDecrypt (binEncrypt text k1) = Except.ok text := by
  induction text with
  | nil => rfl
  | cons b rest ih =>
      have hb : b < 256 := hbytes b (List.mem_cons_self b rest)
      have hrest := ih (fun x hx => hbytes x (List.mem_cons_of_mem b hx))
      have hstep : binEncrypt (b :: rest) k1 = binEncryptByte b ++ binEncrypt rest k1 := by
        simp [binEncrypt]
      rw [hstep, binDecrypt_encrypted_cons, stoull2_binEncryptByte b hb, hrest]
      simp [Except.map, Nat.mod_eq_of_lt hb]

/-- Witness for C2 at the spec scenario: "abc" encodes to
"011000010110001001100011" and that string decodes back to "abc". -/
theorem binary_roundtrip_witness :
    binEncrypt [97, 98, 99] [] =
      [48, 49, 49, 48, 48, 48, 48, 49, 48, 49, 49, 48, 48, 48, 49, 48,
       48, 49, 49, 48, 48, 48, 49, 49] ∧
    binDecrypt
      [48, 49, 49, 48, 48, 48, 48, 49, 48, 49, 49, 48, 48, 48, 49, 48,
       48, 49, 49, 48, 48, 48, 49, 49] = Except.ok [97, 98, 99] := by
  have h := binary_roundtrip [97, 98, 99] [] (by decide)
  rw [show binEncrypt [97, 98, 99] [] =
      [48, 49, 49, 48, 48, 48, 48, 49, 48, 49, 49, 48, 48, 48, 49, 48,
       48, 49, 49, 48, 48, 48, 49, 49] from by decide] at h
  exact ⟨by decide, h⟩

lemma binEncrypt_length (text key : List Nat) :
    (binEncrypt text key).length = 8 * text.length := by
  induction text with
  | nil => rfl
  | cons b rest ih =>
      have hstep : binEncrypt (b :: rest) key = binEncryptByte b ++ binEncrypt rest key := by
        simp [binEncrypt]
      rw [hstep, List.length_append, ih]
      simp only [binEncryptByte, List.length_cons, List.length_nil, List.length_cons]
      ring

/-- Claim C4: the binary encoding of a byte text, for any key, is exactly
8 characters per input byte, all of them ASCII '0' (48) or '1' (49), and
each 8-character group read most-significant-bit first has the value of the
corresponding input byte. -/
theorem binary_encrypt_shape (text key : List Nat) (hbytes : ∀ b ∈ text, b < 256) :
    (binEncrypt text key).length = 8 * text.length ∧
    (∀ c ∈ binEncrypt text key, c = 48 ∨ c = 49) ∧
    (∀ b ∈ text, (binEncryptByte b).foldl (fun a c => 2 * a + (c - 48)) 0 = b) := by
  refine ⟨binEncrypt_length text key, ?_, fun b hb => binEncryptByte_foldl b (hbytes b hb)⟩
  intro c hc
  simp only [binEncrypt, List.mem_flatten, List.mem_map] at hc
  obtain ⟨chunk, ⟨b, _, hchunk⟩, hcmem⟩ := hc
  rw [← hchunk] at hcmem
  simp only [binEncryptByte, List.mem_cons, List.not_mem_nil, or_false] at hcmem
  rcases hcmem with h | h | h | h | h | h | h | h <;>
    · subst h
      omega

/-- Witness for C4 at the "abc" scenario. -/
theorem binary_encrypt_shape_witness :
    (binEncrypt [97, 98, 99] []).length = 8 * 3 ∧
    (∀ c ∈ binEncrypt [97, 98, 99] [], c = 48 ∨ c = 49) := by
  have h := binary_encrypt_shape [97, 98, 99] [] (by decide)
  exact ⟨h.1, h.2.1⟩

/-- Characterization of the keys/segments on which `std::stoull` throws
`std::invalid_argument`: after skipping whitespace and one optional sign,
the very next character is missing or is not a digit of the base. -/
def noDigitStart (base : Nat) (s : List Nat) : Bool :=
  match (splitSign (s.dropWhile isSpaceChar)).2 with
  | [] => true
  | c :: _ => ! isDigitBase base c

lemma stoullDigits_isEmpty (base : Nat) (s : List Nat) :
    (stoullDigits base s).isEmpty = noDigitStart base s := by
  unfold stoullDigits noDigitStart
  cases hs2 : (splitSign (s.dropWhile isSpaceChar)).2 with
  | nil => simp
  | cons c r =>
      rw [List.takeWhile_cons]
      cases hd : isDigitBase base c <;> simp [hd]

lemma stoull_invalid_iff (base : Nat) (s : List Nat) :
    stoull base s = Except.error CppExc.invalidArgument ↔ noDigitStart base s = true := by
  unfold stoull
  rw [stoullDigits_isEmpty]
  cases hnd : noDigitStart base s with
  | true => simp
  | false =>
      simp only [Bool.false_eq_true, if_false]
      split <;> simp

lemma splitSign_snd_length (s : List Nat) : (splitSign s).2.length ≤ s.length := by
  cases s with
  | nil => simp [splitSign]
  | cons c r =>
      simp only [splitSign]
      split_ifs <;> simp

lemma foldl_digits_lt (base : Nat) (ds : List Nat)
    (hds : ∀ c ∈ ds, isDigitBase base c = true) :
    ∀ a, ds.foldl (fun a c => a * base + (c - 48)) a < (a + 1) * base ^ ds.length := by
  induction ds with
  | nil => intro a; simp
  | cons c r ih =>
      intro a
      have hc : isDigitBase base c = true := hds c (List.mem_cons_self c r)
      have hc2 : c - 48 < base := by
        simp only [isDigitBase, Bool.and_eq_true, decide_eq_true_eq] at hc
        omega
      have hr := ih (fun x hx => hds x (List.mem_cons_of_mem c hx)) (a * base + (c - 48))
      calc (c :: r).foldl (fun a c => a * base + (c - 48)) a
          = r.foldl (fun a c => a * base + (c - 48)) (a * base + (c - 48)) := rfl
        _ < (a * base + (c - 48) + 1) * base ^ r.length := hr
        _ ≤ ((a + 1) * base) * base ^ r.length := by
              apply Nat.mul_le_mul_right
              have hq : (a + 1) * base = a * base + base := by ring
              omega
        _ = (a + 1) * base ^ (r.length + 1) := by ring
        _ = (a + 1) * base ^ (c :: r).length := by rw [List.length_cons]

lemma stoullDigits_length_le (base : Nat) (s : List Nat) :
    (stoullDigits base s).length ≤ s.length := by
  unfold stoullDigits
  calc ((splitSign (s.dropWhile isSpaceChar)).2.takeWhile (isDigitBase base)).length
      ≤ (splitSign (s.dropWhile isSpaceChar)).2.length :=
        (List.takeWhile_sublist (isDigitBase base)).length_le
    _ ≤ (s.dropWhile isSpaceChar).length := splitSign_snd_length _
    _ ≤ s.length := (List.dropWhile_sublist isSpaceChar).length_le

lemma stoull_chunk8_ok (s : List Nat) (hlen : s.length ≤ 8) (h : noDigitStart 2 s = false) :
    ∃ v, stoull 2 s = Except.ok v := by
  have hval : stoullVal 2 s < 2 ^ 64 := by
    have hmem : ∀ c ∈ stoullDigits 2 s, isDigitBase 2 c = true :=
      fun c hc => List.mem_takeWhile_imp hc
    have hm := foldl_digits_lt 2 (stoullDigits 2 s) hmem 0
    have hlen2 : (stoullDigits 2 s).length ≤ 8 := le_trans (stoullDigits_length_le 2 s) hlen
    have hpow : (2 : Nat) ^ (stoullDigits 2 s).length ≤ 2 ^ 8 :=
      Nat.pow_le_pow_right (by omega) hlen2
    unfold stoullVal
    calc (stoullDigits 2 s).foldl (fun a c => a * 2 + (c - 48)) 0
        < (0 + 1) * 2 ^ (stoullDigits 2 s).length := hm
      _ ≤ 2 ^ 8 := by simpa using hpow
      _ < 2 ^ 64 := by norm_num
  unfold stoull
  rw [stoullDigits_isEmpty, h]
  simp only [Bool.false_eq_true, if_false]
  rw [if_neg (by omega)]
  exact ⟨_, rfl⟩

/-- Claim C5: on an input whose length is not a multiple of 8 — here
"0110000", 7 characters — `BinaryEncryptionStrategy::decrypt` does not
fail with a malformed-input error: its loop advances the iterator past the
end of the string and reads out of bounds, which is undefined behaviour
(marked `CppExc.undefinedBehavior` in the model). -/
theorem binary_decrypt_length_ub :
    binDecrypt [48, 49, 49, 48, 48, 48, 48] = Except.error CppExc.undefinedBehavior := by
  decide

/-- Claim C6 counterexample: the input "01100002" has an 8-character chunk
containing the non-binary character '2', yet decrypt succeeds — `std::stoull`
parses the binary prefix "0110000" (value 48) and ignores the trailing '2',
so the result is the one-byte string "0" rather than a MalformedInput
failure. -/
theorem binary_decrypt_nonbinary_counterexample :
    binDecrypt [48, 49, 49, 48, 48, 48, 48, 50] = Except.ok [48] := by
  decide

/-- Whether some 8-character chunk of the input is one that `std::stoull`
rejects: after optional whitespace and sign, the chunk does not begin with a
binary digit. -/
def hasRejectedChunk : List Nat → Bool
  | c1 :: c2 :: c3 :: c4 :: c5 :: c6 :: c7 :: c8 :: rest =>
      noDigitStart 2 [c1, c2, c3, c4, c5, c6, c7, c8] || hasRejectedChunk rest
  | _ => false

/-- Claim C6 (amended): for an input of length a multiple of 8,
`BinaryEncryptionStrategy::decrypt` fails (with `std::invalid_argument`,
the spec's MalformedInput) when some 8-character chunk, after optional
whitespace and one optional sign, does not begin with a '0' or '1' digit;
a chunk with a non-binary character after a valid binary-digit prefix does
not by itself cause a failure. -/
theorem binary_decrypt_rejected_chunk :
    ∀ (l : List Nat), l.length % 8 = 0 → hasRejectedChunk l = true →
      binDecrypt l = Except.error CppExc.invalidArgument
  | [] => fun _ hc => by simp [hasRejectedChunk] at hc
  | c1 :: c2 :: c3 :: c4 :: c5 :: c6 :: c7 :: c8 :: rest => fun h8 hc => by
      have h8r : rest.length % 8 = 0 := by
        simp only [List.length_cons] at h8
        omega
      rw [hasRejectedChunk] at hc
      cases hnd : noDigitStart 2 [c1, c2, c3, c4, c5, c6, c7, c8] with
      | true =>
          have hst := (stoull_invalid_iff 2 [c1, c2, c3, c4, c5, c6, c7, c8]).mpr hnd
          simp [binDecrypt, hst]
      | false =>
          rw [hnd] at hc
          simp only [Bool.false_or] at hc
          obtain ⟨v, hv⟩ :=
            stoull_chunk8_ok [c1, c2, c3, c4, c5, c6, c7, c8] (by simp) hnd
          have ih := binary_decrypt_rejected_chunk rest h8r hc
          simp [binDecrypt, hv, ih, Except.map]
  | [c1] => fun h8 _ => by simp at h8
  | [c1, c2] => fun h8 _ => by simp at h8
  | [c1, c2, c3] => fun h8 _ => by simp at h8
  | [c1, c2, c3, c4] => fun h8 _ => by simp at h8
  | [c1, c2, c3, c4, c5] => fun h8 _ => by simp at h8
  | [c1, c2, c3, c4, c5, c6] => fun h8 _ => by simp at h8
  | [c1, c2, c3, c4, c5, c6, c7] => fun h8 _ => by simp at h8

/-- Witness for the amended C6: "20000000" has a chunk that starts with the
non-binary digit '2', and decrypt fails with `std::invalid_argument`. -/
theorem binary_decrypt_rejected_chunk_witness :
    binDecrypt [50, 48, 48, 48, 48, 48, 48, 48] = Except.error CppExc.invalidArgument :=
  binary_decrypt_rejected_chunk [50, 48, 48, 48, 48, 48, 48, 48] (by decide) (by decide)

/-- Claim C7 counterexample: the key "-1" does not denote a non-negative
integer, yet `CaesarEncryptionStrategy::encrypt` does not fail —
`std::stoull` accepts the sign and wraps to `2^64 - 1`, whose residue
mod 255 is 0, so "abc" is "encrypted" to itself. -/
theorem caesar_nonnumeric_counterexample :
    caesarEncrypt [97, 98, 99] [45, 49] = Except.ok [97, 98, 99] := by
  decide

/-- Claim C7 (amended): Caesar encrypt and decrypt fail with
`std::invalid_argument` (the spec's InvalidKey) exactly on the keys
`std::stoull` rejects: those that, after optional whitespace and one
optional sign, do not begin with a decimal digit.  Keys with a decimal
prefix (such as "3abc") or a sign (such as "-1") are accepted, and a
numeric key above `2^64 - 1` raises `std::out_of_range` instead. -/
theorem caesar_invalid_key (text key : List Nat) (h : noDigitStart 10 key = true) :
    caesarEncrypt text key = Except.error CppExc.invalidArgument ∧
    caesarDecrypt text key = Except.error CppExc.invalidArgument := by
  have hs : stoull 10 key = Except.error CppExc.invalidArgument :=
    (stoull_invalid_iff 10 key).mpr h
  constructor <;> simp [caesarEncrypt, caesarDecrypt, hs, Except.map]

/-- Witness for the amended C7 on the non-numeric key "x". -/
theorem caesar_invalid_key_witness :
    caesarEncrypt [97] [120] = Except.error CppExc.invalidArgument ∧
    caesarDecrypt [97] [120] = Except.error CppExc.invalidArgument :=
  caesar_invalid_key [97] [120] (by decide)

/-- The bytes of the decimal string "18446744073709551616" = 2^64, the
smallest non-negative integer rejected by the 64-bit unsigned key parse. -/
def keyTwoPow64 : List Nat :=
  [49, 56, 52, 52, 54, 55, 52, 52, 48, 55, 51, 55, 48, 57, 53, 53, 49, 54, 49, 54]

/-- Claim C10: for the key "18446744073709551616" (= 2^64, a valid
non-negative decimal numeral above 2^64 - 1) and every text, Caesar encrypt
and decrypt fail (`std::out_of_range` from the 64-bit unsigned parse)
rather than shifting by the value reduced mod 255. -/
theorem caesar_key_above_uint64_fails (text : List Nat) :
    caesarEncrypt text keyTwoPow64 = Except.error CppExc.outOfRange ∧
    caesarDecrypt text keyTwoPow64 = Except.error CppExc.outOfRange := by
  have hs : stoull 10 keyTwoPow64 = Except.error CppExc.outOfRange := by decide
  constructor <;> simp [caesarEncrypt, caesarDecrypt, hs, Except.map]

/-- Claim C8: with a strategy bound (XOR here) and a missing source file,
the driver does not fail with an IOError: it silently reads the missing
file as the empty string, writes the transformed empty string to the
destination (creating it), and reports success (`true`) — for both encrypt
and decrypt. -/
theorem file_driver_missing_source_succeeds :
    fileEncrypt (StratPtr.valid Strategy.strXOR) [] [109] [111] [52]
      = DriverOutcome.ret true [([111], [])] ∧
    fileDecrypt (StratPtr.valid Strategy.strXOR) [] [109] [111] [52]
      = DriverOutcome.ret true [([111], [])] := by
  constructor <;> decide

/-- Claim C9: in the only reachable "no strategy selected" state — a
default-constructed `IFileEncryptor`, whose `strategy` member is an
uninitialized pointer — both driver calls evaluate `!strategy` on an
indeterminate value, which is undefined behaviour, not a guaranteed `false`
return with no write.  (The `return false` branch exists in the code but is
reachable only from a null pointer, which no program path ever stores.) -/
theorem file_driver_unset_strategy_ub (fs : FileSys) (src dst key : List Nat) :
    fileEncrypt StratPtr.indeterminate fs src dst key = DriverOutcome.undef ∧
    fileDecrypt StratPtr.indeterminate fs src dst key = DriverOutcome.undef :=
  ⟨rfl, rfl⟩
